import Mathlib

/-!
Shallow embedding of the `rasterioxyz` tile-generation pipeline
(`src/rasterioxyz/tile.py`, helper value types in `src/rasterioxyz/_utils.py`).

Coordinates and affine parameters are Python floats in the source; they are
modelled exactly as rationals (`ℚ`).  Python's float floor-division `//`
followed by `int(...)` is modelled by `Int.floor` on `ℚ` (the `//` result is
already integral, so the truncating `int` is exact).  `sqrt(4 ** z)` is the
exact power `2 ^ z`.  IEEE special values cannot arise in `ℚ`; the single
place the source can produce one (division by `img_max - img_min = 0` in
`_array_to_uint8`, which yields NaN in NumPy) is modelled by `Option`, with
`none` standing for a NaN-contaminated sample.
-/

namespace Rasterioxyz

/-- `Tiles._origin = 20037508.342789244` (half the Mercator world extent in
metres), exact as a rational. -/
def origin : ℚ := 20037508342789244 / 1000000000

/-- `_Bounds` dataclass: `(minx, miny, maxx, maxy)` in projected map units. -/
structure Bounds where
  minx : ℚ
  miny : ℚ
  maxx : ℚ
  maxy : ℚ
  deriving DecidableEq, Repr

/-- A rasterio `Affine` transform: six parameters `(a, b, c, d, e, f)` mapping
pixel `(x, y)` to `(a*x + b*y + c, d*x + e*y + f)`. -/
structure Affine where
  a : ℚ
  b : ℚ
  c : ℚ
  d : ℚ
  e : ℚ
  f : ℚ
  deriving DecidableEq, Repr

/-- Apply an affine transform to a point, `(x, y) ↦ (a*x + b*y + c, d*x + e*y + f)`. -/
def affineApply (t : Affine) (x y : ℚ) : ℚ × ℚ :=
  (t.a * x + t.b * y + t.c, t.d * x + t.e * y + t.f)

/-- `rasterio.transform.from_bounds(west, south, east, north, width, height)`:
the standard bounds-to-affine mapping, scale `(east-west)/width` by
`(south-north)/height` with upper-left corner `(west, north)`. -/
def from_bounds (west south east north width height : ℚ) : Affine :=
  ⟨(east - west) / width, 0, west, 0, (south - north) / height, north⟩

/-- `_ImageProperties` dataclass: Mercator transform and bounds of the source. -/
structure ImageProperties where
  transform : Affine
  bounds : Bounds
  deriving DecidableEq

/-- `Tiles._build_zoom`, tile edge length: `zoom_ntiles = 4 ** zoom`,
`zoom_dims = zoom_ntiles ** .5 = 2 ^ zoom`, `tile_dims = origin * 2 / zoom_dims`. -/
def tile_dims (zoom : ℕ) : ℚ := (origin * 2) / 2 ^ zoom

/-- `Tiles._build_zoom`: `start_col = int((bounds.minx - -origin) // tile_dims)`. -/
def start_col (b : Bounds) (zoom : ℕ) : ℤ := ⌊(b.minx - -origin) / tile_dims zoom⌋

/-- `Tiles._build_zoom`: `end_col = int((bounds.maxx - -origin) // tile_dims)`. -/
def end_col (b : Bounds) (zoom : ℕ) : ℤ := ⌊(b.maxx - -origin) / tile_dims zoom⌋

/-- `Tiles._build_zoom`: `start_row = int(abs(bounds.maxy - origin) // tile_dims)`. -/
def start_row (b : Bounds) (zoom : ℕ) : ℤ := ⌊|b.maxy - origin| / tile_dims zoom⌋

/-- `Tiles._build_zoom`: `end_row = int(abs(bounds.miny - origin) // tile_dims)`. -/
def end_row (b : Bounds) (zoom : ℕ) : ℤ := ⌊|b.miny - origin| / tile_dims zoom⌋

/-- Python's `range(a, b + 1)` over integers: `a, a+1, …, b` (empty when `b < a`). -/
def intRange (a b : ℤ) : List ℤ :=
  (List.range (b - a + 1).toNat).map (fun (i : ℕ) => a + (i : ℤ))

/-- `Tiles._build_zoom`: `tile_indices = itertools.product(range(start_col,
end_col + 1), range(start_row, end_row + 1))` — column-major pairs with the
row varying fastest. -/
def tile_indices (b : Bounds) (zoom : ℕ) : List (ℤ × ℤ) :=
  (intRange (start_col b zoom) (end_col b zoom)).flatMap
    (fun col => (intRange (start_row b zoom) (end_row b zoom)).map (fun row => (col, row)))

/-- `Tiles._build_tile` bounds arithmetic: `minx = origin * -1 + col * dims`,
`maxx = minx + dims`, `maxy = origin - row * dims`, `miny = maxy - dims`. -/
def tile_bounds (col row : ℤ) (dims : ℚ) : Bounds :=
  let minx := origin * (-1) + (col : ℚ) * dims
  let maxx := minx + dims
  let maxy := origin - (row : ℚ) * dims
  let miny := maxy - dims
  ⟨minx, miny, maxx, maxy⟩

/-- `Tiles._build_tile`: `affine = transform.from_bounds(*bounds, pixels, pixels)`. -/
def tile_transform (b : Bounds) (pixels : ℚ) : Affine :=
  from_bounds b.minx b.miny b.maxx b.maxy pixels pixels

/-- A pixel sample value: `none` models an IEEE NaN artifact, `some q` a
finite value. -/
abbrev Sample := Option ℚ

/-- A tile's pixel buffer: the dtype tag (`true` once the data is 8-bit
unsigned) and the list of channels, each a flattened list of samples. -/
structure TileData where
  isUint8 : Bool
  chans : List (List Sample)
  deriving Repr

/-- `Tiles.__init__`: `self._tile_bands = self.img.count if self.img.count <= 3
else 3`. -/
def tile_bands (count : ℕ) : ℕ := if count ≤ 3 then count else 3

/-- `Tiles._read_tile_data` (source already EPSG:3857): read `tile_bands`
bands resampled to `pixels × pixels` (the per-pixel values supplied by the
raster-access collaborator `read`), then append an alpha channel that is `0`
where band 0 is masked and `255` elsewhere (`mask` is the collaborator's
no-data mask for band 0). -/
def read_tile_data (dtypeIsUint8 : Bool) (count pixels : ℕ)
    (read : ℕ → ℕ → ℚ) (mask : ℕ → Bool) : TileData :=
  let bands := (List.range (tile_bands count)).map
    (fun b => (List.range (pixels * pixels)).map (fun i => (some (read b i) : Sample)))
  let alpha := (List.range (pixels * pixels)).map
    (fun i => (some (if mask i then (0 : ℚ) else 255) : Sample))
  ⟨dtypeIsUint8, bands ++ [alpha]⟩

/-- `Tiles._reproject_tile_data` (source in another CRS): the destination
buffer is `zeros((tile_bands + 1, pixels, pixels))` and `warp.reproject`
(the collaborator `reproj`, with `dst_alpha = tile_bands + 1`) fills every
channel, alpha included. -/
def reproject_tile_data (dtypeIsUint8 : Bool) (count pixels : ℕ)
    (reproj : ℕ → ℕ → ℚ) : TileData :=
  ⟨dtypeIsUint8, (List.range (tile_bands count + 1)).map
    (fun b => (List.range (pixels * pixels)).map (fun i => (some (reproj b i) : Sample)))⟩

/-- Truncation toward zero, the rounding C (and hence NumPy's float-to-integer
`astype`) applies. -/
def truncQ (q : ℚ) : ℤ := if 0 ≤ q then ⌊q⌋ else ⌈q⌉

/-- The scaled value `(value - img_min) / (img_max - img_min) * (255 - 0) + 0`
from `Tiles._array_to_uint8`; when `img_max - img_min = 0` the IEEE division
yields NaN, modelled as `none`. -/
def rescale_sample (imgMin imgMax : ℚ) (v : Sample) : Sample :=
  v.bind (fun q =>
    if imgMax - imgMin = 0 then none
    else some ((q - imgMin) / (imgMax - imgMin) * (255 - 0) + 0))

/-- NumPy `astype(uint8)` on one sample: truncation toward zero followed by
reduction to the 8-bit range (the identity on values already in `[0, 255]`);
a NaN sample has no defined 8-bit value. -/
def astype_uint8 (v : Sample) : Sample :=
  v.map (fun q => (((truncQ q) % 256 : ℤ) : ℚ))

/-- `Tiles._array_to_uint8`: `tile_array[:-1] = (tile_array[:-1] - img_min) /
(img_max - img_min) * (255 - 0) + 0` rescales every channel except the last
(alpha), then `tile_array.astype(uint8)` casts the whole buffer. -/
def array_to_uint8 (imgMin imgMax : ℚ) (t : TileData) : TileData :=
  let rescaled := t.chans.dropLast.map (fun ch => ch.map (rescale_sample imgMin imgMax))
      ++ t.chans.drop (t.chans.length - 1)
  ⟨true, rescaled.map (fun ch => ch.map astype_uint8)⟩

/-- The data part of `Tiles._build_tile`: direct read when the source is
already EPSG:3857, reprojection otherwise, then `_array_to_uint8` whenever
the source dtype is not uint8. -/
def build_tile_data (imgIs3857 dtypeIsUint8 : Bool) (count pixels : ℕ)
    (imgMin imgMax : ℚ) (read : ℕ → ℕ → ℚ) (mask : ℕ → Bool)
    (reproj : ℕ → ℕ → ℚ) : TileData :=
  let raw := if imgIs3857 then read_tile_data dtypeIsUint8 count pixels read mask
             else reproject_tile_data dtypeIsUint8 count pixels reproj
  if raw.isUint8 then raw else array_to_uint8 imgMin imgMax raw

/-- The four fields `Tiles.__eq__` inspects: the source raster's profile
(modelled as an association list of creation options), the zoom sequence, the
pixel size and the resampling code. -/
structure TilesConfig where
  profile : List (String × String)
  zooms : List ℤ
  pixels : ℕ
  resampling : ℕ
  deriving DecidableEq

/-- `Tiles.__eq__` between two `Tiles` instances: the four component
equalities combined with `all([...])`. -/
def tiles_eq (s other : TilesConfig) : Bool :=
  let dataset_eq := decide (s.profile = other.profile)
  let zooms_eq := decide (s.zooms = other.zooms)
  let pixels_eq := decide (s.pixels = other.pixels)
  let resampling_eq := decide (s.resampling = other.resampling)
  if dataset_eq && zooms_eq && pixels_eq && resampling_eq then true else false

/-- The parts of a `_Tile` that `Tiles.write` reads: the address and the
pixel buffer. -/
structure WTile where
  zoom : ℤ
  column : ℤ
  row : ℤ
  data : List (List Sample)

/-- A filesystem action performed by `Tiles.write`, with the path relative to
the output directory. -/
inductive FsEffect where
  | mkdirP (path : List String)
  | writeFile (path : List String)
  deriving DecidableEq, Repr

/-- Sum of a channel's samples with IEEE NaN propagation: `none` as soon as
any sample is NaN. -/
def sampleSum : List Sample → Option ℚ
  | [] => some 0
  | none :: _ => none
  | some q :: rest => (sampleSum rest).map (fun s => q + s)

/-- NumPy `.mean()` of a channel: NaN (`none`) for an empty channel or one
containing a NaN sample, otherwise the sum of the samples divided by their
number. -/
def channel_mean (ch : List Sample) : Option ℚ :=
  if ch = [] then none
  else (sampleSum ch).map (fun s => s / (ch.length : ℚ))

/-- `tile.data[-1].mean()` from `Tiles.write`. -/
def alpha_mean (t : WTile) : Option ℚ := (t.data.getLast?).bind channel_mean

/-- The body of the loop in `Tiles.write` for one tile: `img_dir.mkdir(
parents=True, exist_ok=True)` happens first, then the alpha-mean test decides
whether the image file `{row}.{driver}` is written into it. -/
def write_tile_effects (t : WTile) (driver : String) : List FsEffect :=
  FsEffect.mkdirP [toString t.zoom, toString t.column] ::
    (if alpha_mean t = some 0 then []
     else [FsEffect.writeFile [toString t.zoom, toString t.column,
       toString t.row ++ "." ++ driver]])

/-- Python `str.upper()` as `Tiles.write` applies it to the ASCII driver
name, character by character. -/
def pyUpper (s : String) : String := ⟨s.data.map Char.toUpper⟩

/-- `Tiles.write`: validate the driver, then the output directory, then drain
the instance's tile stream (the `List WTile` argument models the generator's
remaining elements, and the returned list its state afterwards: exhausted). -/
def write (tiles : List WTile) (driver : String)
    (dirExists dirIsDir : Bool) : Except String (List FsEffect × List WTile) :=
  if ¬ (pyUpper driver = "PNG" ∨ pyUpper driver = "JPEG") then
    Except.error "driver must be PNG or JPEG"
  else if ¬ dirExists ∨ ¬ dirIsDir then
    Except.error "directory does not exist"
  else
    Except.ok (tiles.flatMap (fun t => write_tile_effects t driver), [])

/-- The §4.4 rescale rule as the spec words it: `round((value - img_min) /
(img_max - img_min) * 255)`, clamped to `[0, 255]`. -/
def rescale_sample_spec (imgMin imgMax v : ℚ) : ℤ :=
  min 255 (max 0 (round ((v - imgMin) / (imgMax - imgMin) * 255)))

/-- The hypothesis of the zoom-0 claim as §8 of the spec words it: the source
bounds intersect the full Mercator extent `[-origin, origin]²`. -/
def intersects_mercator_extent (b : Bounds) : Prop :=
  b.minx ≤ origin ∧ -origin ≤ b.maxx ∧ b.miny ≤ origin ∧ -origin ≤ b.maxy

instance (b : Bounds) : Decidable (intersects_mercator_extent b) := by
  unfold intersects_mercator_extent; infer_instance

/-! ### Helper lemmas about the grid planner -/

lemma origin_pos : (0 : ℚ) < origin := by norm_num [origin]

lemma tile_dims_pos (z : ℕ) : 0 < tile_dims z :=
  div_pos (by norm_num [origin]) (by positivity)

lemma mem_intRange {a b x : ℤ} : x ∈ intRange a b ↔ a ≤ x ∧ x ≤ b := by
  simp only [intRange, List.mem_map, List.mem_range]
  constructor
  · rintro ⟨i, hi, rfl⟩
    omega
  · rintro ⟨h1, h2⟩
    exact ⟨(x - a).toNat, by omega, by omega⟩

lemma range_flatMap_map {α : Type} (m n : ℕ) (f : ℕ → ℕ → α) :
    (List.range m).flatMap (fun c => (List.range n).map (f c)) =
      (List.range (m * n)).map (fun i => f (i / n) (i % n)) := by
  rcases Nat.eq_zero_or_pos n with hn | hn
  · subst hn
    simp
  · induction m with
    | zero => simp
    | succ m ih =>
      rw [List.range_succ, List.flatMap_append, ih, Nat.succ_mul, List.range_add,
        List.map_append, List.map_map]
      simp only [List.flatMap_cons, List.flatMap_nil, List.append_nil]
      congr 1
      apply List.map_congr_left
      intro r hr
      rw [List.mem_range] at hr
      have h1 : (m * n + r) / n = m := by
        rw [Nat.add_comm, Nat.mul_comm, Nat.add_mul_div_left r m hn,
          Nat.div_eq_of_lt hr, Nat.zero_add]
      have h2 : (m * n + r) % n = r := by
        rw [Nat.add_comm, Nat.mul_comm, Nat.add_mul_mod_self_left, Nat.mod_eq_of_lt hr]
      simp [Function.comp, h1, h2]

lemma tile_indices_closed (b : Bounds) (z : ℕ) :
    tile_indices b z =
      (List.range ((end_col b z - start_col b z + 1).toNat *
                   (end_row b z - start_row b z + 1).toNat)).map
        (fun i => (start_col b z + ((i / (end_row b z - start_row b z + 1).toNat : ℕ) : ℤ),
                   start_row b z + ((i % (end_row b z - start_row b z + 1).toNat : ℕ) : ℤ))) := by
  unfold tile_indices intRange
  rw [List.flatMap_map]
  simp only [List.map_map]
  exact range_flatMap_map _ _
    (fun cc rr => (start_col b z + (cc : ℤ), start_row b z + (rr : ℤ)))

lemma tile_indices_length (b : Bounds) (z : ℕ) :
    (tile_indices b z).length =
      (end_col b z - start_col b z + 1).toNat *
      (end_row b z - start_row b z + 1).toNat := by
  rw [tile_indices_closed, List.length_map, List.length_range]

lemma start_col_le_end_col {b : Bounds} (z : ℕ) (h : b.minx ≤ b.maxx) :
    start_col b z ≤ end_col b z :=
  Int.floor_le_floor
    (div_le_div_of_nonneg_right (by linarith) (tile_dims_pos z).le)

lemma start_row_le_end_row {b : Bounds} (z : ℕ) (h1 : b.miny ≤ b.maxy)
    (h2 : b.maxy ≤ origin) : start_row b z ≤ end_row b z := by
  apply Int.floor_le_floor
  apply div_le_div_of_nonneg_right _ (tile_dims_pos z).le
  rw [abs_of_nonpos (by linarith), abs_of_nonpos (by linarith)]
  linarith

/-! ### C1: number of planned tile indices -/

/-- **C1** (counterexample to the claim as stated).  A source whose Mercator
bounds lie entirely above the top of the Mercator square — here
`(0, 5·origin, origin/2, 11·origin)`, a valid bounds rectangle — gives, at
zoom 0, `start_row = 5 > end_row = 2` because of the absolute values in
`_build_zoom`, so the plan is empty (length 0) while
`(end_col-start_col+1) * (end_row-start_row+1) = 1 * (-2) = -2`. -/
theorem C1_counterexample :
    (Bounds.mk 0 (5 * origin) (origin / 2) (11 * origin)).minx <
      (Bounds.mk 0 (5 * origin) (origin / 2) (11 * origin)).maxx ∧
    (Bounds.mk 0 (5 * origin) (origin / 2) (11 * origin)).miny <
      (Bounds.mk 0 (5 * origin) (origin / 2) (11 * origin)).maxy ∧
    ((tile_indices ⟨0, 5 * origin, origin / 2, 11 * origin⟩ 0).length : ℤ) ≠
      (end_col ⟨0, 5 * origin, origin / 2, 11 * origin⟩ 0 -
          start_col ⟨0, 5 * origin, origin / 2, 11 * origin⟩ 0 + 1) *
        (end_row ⟨0, 5 * origin, origin / 2, 11 * origin⟩ 0 -
          start_row ⟨0, 5 * origin, origin / 2, 11 * origin⟩ 0 + 1) := by
  have hsc : start_col ⟨0, 5 * origin, origin / 2, 11 * origin⟩ 0 = 0 := by
    unfold start_col
    norm_num [tile_dims, origin]
  have hec : end_col ⟨0, 5 * origin, origin / 2, 11 * origin⟩ 0 = 0 := by
    unfold end_col
    norm_num [tile_dims, origin]
  have hsr : start_row ⟨0, 5 * origin, origin / 2, 11 * origin⟩ 0 = 5 := by
    unfold start_row
    rw [abs_of_nonneg (by norm_num [origin])]
    norm_num [tile_dims, origin]
  have her : end_row ⟨0, 5 * origin, origin / 2, 11 * origin⟩ 0 = 2 := by
    unfold end_row
    rw [abs_of_nonneg (by norm_num [origin])]
    norm_num [tile_dims, origin]
  refine ⟨by norm_num [origin], by norm_num [origin], ?_⟩
  rw [tile_indices_length, hsc, hec, hsr, her]
  decide

/-- **C1** (amended).  For every bounds rectangle that satisfies the data
model's invariant (`minx ≤ maxx`, `miny ≤ maxy`) and does not extend above
the Mercator top edge (`maxy ≤ origin`), and every zoom, the number of
planned tile indices equals `(end_col-start_col+1) * (end_row-start_row+1)`
with the planner's formulas `start_col = ⌊(minx+origin)/tile_dims⌋`,
`end_col = ⌊(maxx+origin)/tile_dims⌋`, `start_row = ⌊|maxy-origin|/tile_dims⌋`,
`end_row = ⌊|miny-origin|/tile_dims⌋`, `tile_dims = 2·origin/√(4^z)`. -/
theorem C1_plan_count (b : Bounds) (z : ℕ) (hx : b.minx ≤ b.maxx)
    (hy : b.miny ≤ b.maxy) (htop : b.maxy ≤ origin) :
    ((tile_indices b z).length : ℤ) =
      (end_col b z - start_col b z + 1) * (end_row b z - start_row b z + 1) := by
  have h1 := start_col_le_end_col z hx
  have h2 := start_row_le_end_row z hy htop
  rw [tile_indices_length]
  push_cast
  rw [Int.toNat_of_nonneg (by omega), Int.toNat_of_nonneg (by omega)]

/-- Witness for `C1_plan_count` at the concrete bounds `(0, 0, 1, 1)`, zoom 1. -/
theorem C1_plan_count_witness :
    (Bounds.mk 0 0 1 1).minx ≤ (Bounds.mk 0 0 1 1).maxx ∧
    (Bounds.mk 0 0 1 1).miny ≤ (Bounds.mk 0 0 1 1).maxy ∧
    (Bounds.mk 0 0 1 1).maxy ≤ origin ∧
    ((tile_indices ⟨0, 0, 1, 1⟩ 1).length : ℤ) =
      (end_col ⟨0, 0, 1, 1⟩ 1 - start_col ⟨0, 0, 1, 1⟩ 1 + 1) *
        (end_row ⟨0, 0, 1, 1⟩ 1 - start_row ⟨0, 0, 1, 1⟩ 1 + 1) :=
  ⟨by norm_num, by norm_num, by norm_num [origin],
    C1_plan_count ⟨0, 0, 1, 1⟩ 1 (by norm_num) (by norm_num) (by norm_num [origin])⟩

/-! ### C5: zoom 0 -/

/-- **C5** (counterexample to the claim as stated).  The bounds
`(-origin, -origin, origin, origin)` — the full Mercator extent, which
certainly intersects it — yield `end_col = end_row = 1` at zoom 0, because
`⌊(origin + origin) / (2·origin)⌋ = 1`, so the planner produces 4 tile
indices, not 1. -/
theorem C5_counterexample :
    intersects_mercator_extent ⟨-origin, -origin, origin, origin⟩ ∧
    (tile_indices ⟨-origin, -origin, origin, origin⟩ 0).length = 4 ∧
    (tile_indices ⟨-origin, -origin, origin, origin⟩ 0).length ≠ 1 := by
  have hsc : start_col ⟨-origin, -origin, origin, origin⟩ 0 = 0 := by
    unfold start_col
    norm_num [tile_dims, origin]
  have hec : end_col ⟨-origin, -origin, origin, origin⟩ 0 = 1 := by
    unfold end_col
    norm_num [tile_dims, origin]
  have hsr : start_row ⟨-origin, -origin, origin, origin⟩ 0 = 0 := by
    unfold start_row
    norm_num [tile_dims, origin]
  have her : end_row ⟨-origin, -origin, origin, origin⟩ 0 = 1 := by
    unfold end_row
    rw [abs_of_nonpos (by norm_num [origin])]
    norm_num [tile_dims, origin]
  refine ⟨by norm_num [intersects_mercator_extent, origin], ?_, ?_⟩ <;>
    rw [tile_indices_length, hsc, hec, hsr, her] <;> decide

/-- **C5** (amended).  Planning at zoom 0 yields exactly one tile index pair
when the source bounds are contained in the Mercator extent, strictly so at
the east edge (`maxx < origin`) and the south edge (`-origin < miny`):
bounds touching or crossing those edges fall into a second column/row. -/
theorem C5_zoom0_single_tile (b : Bounds)
    (h1 : -origin ≤ b.minx) (h2 : b.minx ≤ b.maxx) (h3 : b.maxx < origin)
    (h4 : -origin < b.miny) (h5 : b.miny ≤ b.maxy) (h6 : b.maxy ≤ origin) :
    (tile_indices b 0).length = 1 := by
  have hd : tile_dims 0 = origin * 2 := by norm_num [tile_dims]
  have hop := origin_pos
  have hsc : start_col b 0 = 0 := by
    rw [start_col, Int.floor_eq_zero_iff, Set.mem_Ico]
    constructor
    · exact div_nonneg (by linarith) (tile_dims_pos 0).le
    · rw [div_lt_one (tile_dims_pos 0), hd]
      linarith
  have hec : end_col b 0 = 0 := by
    rw [end_col, Int.floor_eq_zero_iff, Set.mem_Ico]
    constructor
    · exact div_nonneg (by linarith) (tile_dims_pos 0).le
    · rw [div_lt_one (tile_dims_pos 0), hd]
      linarith
  have hsr : start_row b 0 = 0 := by
    rw [start_row, Int.floor_eq_zero_iff, Set.mem_Ico]
    constructor
    · exact div_nonneg (abs_nonneg _) (tile_dims_pos 0).le
    · rw [div_lt_one (tile_dims_pos 0), hd, abs_of_nonpos (by linarith)]
      linarith
  have her : end_row b 0 = 0 := by
    rw [end_row, Int.floor_eq_zero_iff, Set.mem_Ico]
    constructor
    · exact div_nonneg (abs_nonneg _) (tile_dims_pos 0).le
    · rw [div_lt_one (tile_dims_pos 0), hd, abs_of_nonpos (by linarith)]
      linarith
  rw [tile_indices_length, hsc, hec, hsr, her]
  decide

/-- Witness for `C5_zoom0_single_tile` at the concrete bounds `(-1, -1, 1, 1)`. -/
theorem C5_zoom0_single_tile_witness :
    -origin ≤ (Bounds.mk (-1) (-1) 1 1).minx ∧
    (Bounds.mk (-1) (-1) 1 1).minx ≤ (Bounds.mk (-1) (-1) 1 1).maxx ∧
    (Bounds.mk (-1) (-1) 1 1).maxx < origin ∧
    -origin < (Bounds.mk (-1) (-1) 1 1).miny ∧
    (Bounds.mk (-1) (-1) 1 1).miny ≤ (Bounds.mk (-1) (-1) 1 1).maxy ∧
    (Bounds.mk (-1) (-1) 1 1).maxy ≤ origin ∧
    (tile_indices ⟨-1, -1, 1, 1⟩ 0).length = 1 :=
  ⟨by norm_num [origin], by norm_num, by norm_num [origin], by norm_num [origin],
    by norm_num, by norm_num [origin],
    C5_zoom0_single_tile ⟨-1, -1, 1, 1⟩ (by norm_num [origin]) (by norm_num)
      (by norm_num [origin]) (by norm_num [origin]) (by norm_num)
      (by norm_num [origin])⟩

/-! ### C8: the planned sequence -/

/-- **C8** (confirmed).  For every bounds and zoom, the planned tile index
sequence is exactly the Cartesian product `[start_col, end_col] ×
[start_row, end_row]`, inclusive at both ends (the membership equivalence),
emitted in column-major order with the row varying fastest: entry `i` of the
sequence is `(start_col + i / nrows, start_row + i % nrows)` where
`nrows = (end_row - start_row + 1).toNat`. -/
theorem C8_plan_product_order (b : Bounds) (z : ℕ) :
    (∀ c r : ℤ, (c, r) ∈ tile_indices b z ↔
      start_col b z ≤ c ∧ c ≤ end_col b z ∧ start_row b z ≤ r ∧ r ≤ end_row b z) ∧
    tile_indices b z =
      (List.range ((end_col b z - start_col b z + 1).toNat *
                   (end_row b z - start_row b z + 1).toNat)).map
        (fun i => (start_col b z + ((i / (end_row b z - start_row b z + 1).toNat : ℕ) : ℤ),
                   start_row b z + ((i % (end_row b z - start_row b z + 1).toNat : ℕ) : ℤ))) := by
  refine ⟨?_, tile_indices_closed b z⟩
  intro c r
  unfold tile_indices
  constructor
  · intro h
    obtain ⟨col, hcol, hmem⟩ := List.mem_flatMap.mp h
    obtain ⟨row, hrow, heq⟩ := List.mem_map.mp hmem
    rw [Prod.ext_iff] at heq
    obtain ⟨h1, h2⟩ := heq
    dsimp at h1 h2
    subst h1
    subst h2
    exact ⟨(mem_intRange.mp hcol).1, (mem_intRange.mp hcol).2,
      (mem_intRange.mp hrow).1, (mem_intRange.mp hrow).2⟩
  · rintro ⟨h1, h2, h3, h4⟩
    exact List.mem_flatMap.mpr ⟨c, mem_intRange.mpr ⟨h1, h2⟩,
      List.mem_map.mpr ⟨r, mem_intRange.mpr ⟨h3, h4⟩, rfl⟩⟩

/-! ### C2: tile bounds and transform -/

/-- **C2** (confirmed).  A tile built at `(zoom, col, row)` with edge length
`dims` has bounds `minx = -origin + col·dims`, `maxx = minx + dims`,
`maxy = origin - row·dims`, `miny = maxy - dims`, and its transform is the
standard bounds-to-affine mapping for a `px × px` grid over those bounds:
scale `(dims/px, -dims/px)`, no rotation, taking pixel `(0,0)` to the
upper-left corner `(minx, maxy)` and pixel `(px,px)` to the lower-right
corner `(maxx, miny)`. -/
theorem C2_tile_geometry (col row : ℤ) (dims px : ℚ) (hpx : px ≠ 0) :
    tile_bounds col row dims =
      ⟨-origin + col * dims, origin - row * dims - dims,
        -origin + col * dims + dims, origin - row * dims⟩ ∧
    tile_transform (tile_bounds col row dims) px =
      ⟨dims / px, 0, -origin + col * dims, 0, -(dims / px), origin - row * dims⟩ ∧
    affineApply (tile_transform (tile_bounds col row dims) px) 0 0 =
      ((tile_bounds col row dims).minx, (tile_bounds col row dims).maxy) ∧
    affineApply (tile_transform (tile_bounds col row dims) px) px px =
      ((tile_bounds col row dims).maxx, (tile_bounds col row dims).miny) := by
  refine ⟨?_, ?_, ?_, ?_⟩ <;>
    simp only [tile_bounds, tile_transform, from_bounds, affineApply,
      Bounds.mk.injEq, Affine.mk.injEq, Prod.mk.injEq] <;>
    refine ⟨by field_simp; try ring, by field_simp; try ring⟩

/-- Witness for `C2_tile_geometry` at `col = 1`, `row = 2`, `dims = 3`,
`px = 256`. -/
theorem C2_tile_geometry_witness :
    (256 : ℚ) ≠ 0 ∧
    (tile_bounds 1 2 3 =
      ⟨-origin + 1 * 3, origin - 2 * 3 - 3, -origin + 1 * 3 + 3, origin - 2 * 3⟩ ∧
    tile_transform (tile_bounds 1 2 3) 256 =
      ⟨3 / 256, 0, -origin + 1 * 3, 0, -(3 / 256), origin - 2 * 3⟩ ∧
    affineApply (tile_transform (tile_bounds 1 2 3) 256) 0 0 =
      ((tile_bounds 1 2 3).minx, (tile_bounds 1 2 3).maxy) ∧
    affineApply (tile_transform (tile_bounds 1 2 3) 256) 256 256 =
      ((tile_bounds 1 2 3).maxx, (tile_bounds 1 2 3).miny)) :=
  ⟨by norm_num, by
    have h := C2_tile_geometry 1 2 3 256 (by norm_num)
    push_cast at h ⊢
    exact h⟩

/-! ### C9: pipeline equality -/

/-- **C9** (confirmed).  Two pipeline instances compare equal exactly when
they agree on the raster profile, the zoom sequence, the pixel size and the
resampling code; consequently changing any single one of those four fields
makes `tiles_eq` return `false`. -/
theorem C9_config_eq_iff (s other : TilesConfig) :
    tiles_eq s other = true ↔
      s.profile = other.profile ∧ s.zooms = other.zooms ∧
      s.pixels = other.pixels ∧ s.resampling = other.resampling := by
  simp [tiles_eq, and_assoc]

/-! ### C4: write-time effects per tile -/

/-- **C4** (counterexample to the claim as stated).  A tile whose alpha
channel is identically zero — mean exactly `0` — still gets its directory
created: in the `write` loop `img_dir.mkdir(parents=True, exist_ok=True)`
runs *before* the transparency test, so the effect list for the tile is
`[mkdirP [zoom, column]]`, not `[]` as the claim's "no directory is created
for it" requires (only the file write is skipped). -/
theorem C4_counterexample :
    alpha_mean ⟨0, 0, 0, [[some 0, some 0]]⟩ = some 0 ∧
    write_tile_effects ⟨0, 0, 0, [[some 0, some 0]]⟩ "PNG" =
      [FsEffect.mkdirP ["0", "0"]] := by
  have h : alpha_mean ⟨0, 0, 0, [[some 0, some 0]]⟩ = some 0 := by
    simp [alpha_mean, channel_mean, sampleSum]
  refine ⟨h, ?_⟩
  unfold write_tile_effects
  rw [if_pos h]
  decide

/-- **C4** (amended).  For every tile pulled during `write`, the directory
`{out_dir}/{zoom}/{column}/` is created (idempotently, parents included)
*unconditionally*; the file `{row}.{driver}` is then written there exactly
when the mean of the tile's alpha channel is not zero.  The alpha-mean-zero
test skips only the file write, not the directory creation. -/
theorem C4_write_tile_effects (t : WTile) (driver : String) :
    (alpha_mean t = some 0 →
      write_tile_effects t driver =
        [FsEffect.mkdirP [toString t.zoom, toString t.column]]) ∧
    (alpha_mean t ≠ some 0 →
      write_tile_effects t driver =
        [FsEffect.mkdirP [toString t.zoom, toString t.column],
         FsEffect.writeFile [toString t.zoom, toString t.column,
           toString t.row ++ "." ++ driver]]) := by
  unfold write_tile_effects
  constructor
  · intro h
    rw [if_pos h]
  · intro h
    rw [if_neg h]

/-- Witness for `C4_write_tile_effects`: a fully transparent tile and a fully
opaque one. -/
theorem C4_write_tile_effects_witness :
    (alpha_mean ⟨0, 0, 0, [[some 0, some 0]]⟩ = some 0 ∧
      write_tile_effects ⟨0, 0, 0, [[some 0, some 0]]⟩ "JPEG" =
        [FsEffect.mkdirP [toString (0 : ℤ), toString (0 : ℤ)]]) ∧
    (alpha_mean ⟨3, 7, 9, [[some 255]]⟩ ≠ some 0 ∧
      write_tile_effects ⟨3, 7, 9, [[some 255]]⟩ "JPEG" =
        [FsEffect.mkdirP [toString (3 : ℤ), toString (7 : ℤ)],
         FsEffect.writeFile [toString (3 : ℤ), toString (7 : ℤ),
           toString (9 : ℤ) ++ "." ++ "JPEG"]]) := by
  have h0 : alpha_mean ⟨0, 0, 0, [[some 0, some 0]]⟩ = some 0 := by
    simp [alpha_mean, channel_mean, sampleSum]
  have h1 : alpha_mean ⟨3, 7, 9, [[some 255]]⟩ ≠ some 0 := by
    simp [alpha_mean, channel_mean, sampleSum]
  exact ⟨⟨h0, (C4_write_tile_effects _ _).1 h0⟩, ⟨h1, (C4_write_tile_effects _ _).2 h1⟩⟩

/-! ### C10: the tile stream is one-shot -/

/-- **C10** (confirmed).  The tile stream is created once and stored on the
instance, so a completed `write` leaves it exhausted: any later `write` on
the same instance still performs its driver and directory validation (an
invalid driver or directory still raises) but iterates zero tiles and
produces zero filesystem effects, without error. -/
theorem C10_write_consumes_stream (tiles : List WTile) (driver : String)
    (effs : List FsEffect) (rest : List WTile)
    (h : write tiles driver true true = Except.ok (effs, rest)) :
    rest = [] ∧
    write rest driver true true = Except.ok ([], []) ∧
    write rest "TIF" true true = Except.error "driver must be PNG or JPEG" ∧
    write rest driver true false = Except.error "directory does not exist" := by
  by_cases hd : pyUpper driver = "PNG" ∨ pyUpper driver = "JPEG"
  · unfold write at h
    rw [if_neg (not_not_intro hd), if_neg (by simp)] at h
    simp only [Except.ok.injEq, Prod.mk.injEq] at h
    obtain ⟨-, hrest⟩ := h
    subst hrest
    refine ⟨rfl, ?_, ?_, ?_⟩
    · unfold write
      rw [if_neg (not_not_intro hd), if_neg (by simp)]
      simp
    · unfold write
      rw [if_pos (by decide)]
    · unfold write
      rw [if_neg (not_not_intro hd), if_pos (by simp)]
  · unfold write at h
    rw [if_pos hd] at h
    exact absurd h (by simp)

/-- Witness for `C10_write_consumes_stream`: one opaque tile, driver `PNG`. -/
theorem C10_write_consumes_stream_witness :
    write [⟨3, 7, 9, [[some 255]]⟩] "PNG" true true =
      Except.ok ([FsEffect.mkdirP ["3", "7"], FsEffect.writeFile ["3", "7", "9.PNG"]],
        ([] : List WTile)) ∧
    (([] : List WTile) = [] ∧
     write [] "PNG" true true = Except.ok ([], []) ∧
     write [] "TIF" true true = Except.error "driver must be PNG or JPEG" ∧
     write [] "PNG" true false = Except.error "directory does not exist") := by
  have hmean : alpha_mean ⟨3, 7, 9, [[some 255]]⟩ ≠ some 0 := by
    simp [alpha_mean, channel_mean, sampleSum]
  have hfirst : write [⟨3, 7, 9, [[some 255]]⟩] "PNG" true true =
      Except.ok ([FsEffect.mkdirP ["3", "7"], FsEffect.writeFile ["3", "7", "9.PNG"]],
        ([] : List WTile)) := by
    unfold write
    rw [if_neg (by decide), if_neg (by simp)]
    unfold write_tile_effects
    rw [List.flatMap_cons, List.flatMap_nil, if_neg hmean]
    rfl
  exact ⟨hfirst, C10_write_consumes_stream _ _ _ _ hfirst⟩

/-! ### Helper lemmas about the rescaler -/

lemma tile_bands_eq_min (count : ℕ) : tile_bands count = min count 3 := by
  unfold tile_bands
  split <;> omega

lemma array_to_uint8_concat (imgMin imgMax : ℚ) (flag : Bool)
    (front : List (List Sample)) (alphaCh : List Sample) :
    array_to_uint8 imgMin imgMax ⟨flag, front ++ [alphaCh]⟩ =
      ⟨true, front.map (fun ch => ch.map
          (fun v => astype_uint8 (rescale_sample imgMin imgMax v))) ++
        [alphaCh.map astype_uint8]⟩ := by
  unfold array_to_uint8
  simp [List.dropLast_concat, List.length_append, Nat.add_sub_cancel,
    List.drop_left, List.map_map, Function.comp]

lemma array_to_uint8_chans_length (imgMin imgMax : ℚ) (t : TileData) :
    (array_to_uint8 imgMin imgMax t).chans.length = t.chans.length := by
  unfold array_to_uint8
  simp only [List.length_map, List.length_append, List.length_dropLast,
    List.length_drop]
  omega

lemma array_to_uint8_mem (imgMin imgMax : ℚ) (t : TileData) (ch' : List Sample)
    (h : ch' ∈ (array_to_uint8 imgMin imgMax t).chans) :
    ∃ ch ∈ t.chans,
      ch' = ch.map (fun v => astype_uint8 (rescale_sample imgMin imgMax v)) ∨
      ch' = ch.map astype_uint8 := by
  unfold array_to_uint8 at h
  simp only [List.mem_map, List.mem_append] at h
  obtain ⟨ch0, hch0, rfl⟩ := h
  rcases hch0 with hch0 | hch0
  · obtain ⟨ch, hch, rfl⟩ := hch0
    exact ⟨ch, List.dropLast_subset _ hch, Or.inl (by rw [List.map_map]; rfl)⟩
  · exact ⟨ch0, List.drop_subset _ _ hch0, Or.inr rfl⟩

lemma astype_uint8_bounded (v : Sample) (q : ℚ) (h : astype_uint8 v = some q) :
    ∃ z : ℤ, q = (z : ℚ) ∧ 0 ≤ z ∧ z < 256 := by
  rcases v with _ | x
  · simp [astype_uint8] at h
  · simp only [astype_uint8, Option.map_some', Option.some.injEq] at h
    exact ⟨truncQ x % 256, h.symm,
      Int.emod_nonneg _ (by norm_num), Int.emod_lt_of_pos _ (by norm_num)⟩

lemma truncQ_scaled_range {imgMin imgMax q : ℚ} (hlt : imgMin < imgMax)
    (h1 : imgMin ≤ q) (h2 : q ≤ imgMax) :
    0 ≤ truncQ ((q - imgMin) / (imgMax - imgMin) * 255) ∧
    truncQ ((q - imgMin) / (imgMax - imgMin) * 255) ≤ 255 := by
  have hpos : 0 < imgMax - imgMin := by linarith
  have hx0 : 0 ≤ (q - imgMin) / (imgMax - imgMin) :=
    div_nonneg (by linarith) hpos.le
  have hx1 : (q - imgMin) / (imgMax - imgMin) ≤ 1 := by
    rw [div_le_one hpos]
    linarith
  have hs0 : 0 ≤ (q - imgMin) / (imgMax - imgMin) * 255 :=
    mul_nonneg hx0 (by norm_num)
  have hs1 : (q - imgMin) / (imgMax - imgMin) * 255 ≤ 255 := by nlinarith
  rw [truncQ, if_pos hs0]
  refine ⟨Int.floor_nonneg.mpr hs0, ?_⟩
  have hf : (⌊(q - imgMin) / (imgMax - imgMin) * 255⌋ : ℚ) ≤ 255 :=
    (Int.floor_le _).trans hs1
  exact_mod_cast hf

lemma astype_rescale_eq {imgMin imgMax : ℚ} (hlt : imgMin < imgMax) {q : ℚ}
    (h1 : imgMin ≤ q) (h2 : q ≤ imgMax) :
    astype_uint8 (rescale_sample imgMin imgMax (some q)) =
      some ((truncQ ((q - imgMin) / (imgMax - imgMin) * 255) : ℤ) : ℚ) := by
  have hne : imgMax - imgMin ≠ 0 := by linarith
  have hform : (q - imgMin) / (imgMax - imgMin) * (255 - 0) + 0 =
      (q - imgMin) / (imgMax - imgMin) * 255 := by ring
  obtain ⟨hb0, hb1⟩ := truncQ_scaled_range hlt h1 h2
  simp only [rescale_sample, Option.some_bind, if_neg hne, astype_uint8,
    Option.map_some', Option.some.injEq, hform]
  rw [Int.emod_eq_of_lt hb0 (by omega)]

lemma astype_alpha_eq {v : Sample} (h : v = some 0 ∨ v = some 255) :
    astype_uint8 v = v := by
  have h255 : truncQ 255 = 255 := by
    rw [truncQ, if_pos (by norm_num)]
    norm_num
  have h0 : truncQ 0 = 0 := by
    rw [truncQ, if_pos le_rfl]
    norm_num
  rcases h with rfl | rfl <;> simp [astype_uint8, h0, h255]

/-! ### C3: dtype rescaling -/

/-- **C3** (counterexample to the claim as stated).  With global statistics
`img_min = 0`, `img_max = 2` and a non-alpha sample of value `1`, the scaled
value is `1/2·255 = 127.5`; the claim's `round` gives `128`, but the code's
NumPy `astype(uint8)` truncates and stores `127`. -/
theorem C3_counterexample :
    (array_to_uint8 0 2 ⟨false, [[some 1], [some 255]]⟩).chans =
      [[some 127], [some 255]] ∧
    rescale_sample_spec 0 2 1 = 128 := by
  constructor
  · show (array_to_uint8 0 2 ⟨false, [[some 1]] ++ [[some 255]]⟩).chans = _
    rw [array_to_uint8_concat]
    have h1 : astype_uint8 (rescale_sample 0 2 (some 1)) = some 127 := by
      rw [astype_rescale_eq (by norm_num) (by norm_num) (by norm_num)]
      norm_num [truncQ]
    have h2 : astype_uint8 (some 255) = some 255 := astype_alpha_eq (Or.inr rfl)
    simp [h1, h2]
  · rw [rescale_sample_spec, round_eq]
    norm_num

/-- **C3** (amended).  When the source sample type is not 8-bit unsigned,
each output sample of every channel except the last (alpha) equals
`trunc((value - img_min) / (img_max - img_min) * 255)` — truncation toward
zero, not rounding — cast to 8-bit unsigned; no clamping is performed, and
none is needed because for `img_min ≤ value ≤ img_max` the truncated value
already lies in `[0, 255]` (second conjunct).  The alpha channel (values 0
or 255 by construction) passes through unchanged. -/
theorem C3_rescale_truncates (imgMin imgMax : ℚ) (front : List (List Sample))
    (alphaCh : List Sample) (flag : Bool) (hlt : imgMin < imgMax)
    (hrange : ∀ ch ∈ front, ∀ q : ℚ, some q ∈ ch → imgMin ≤ q ∧ q ≤ imgMax)
    (halpha : ∀ v ∈ alphaCh, v = some 0 ∨ v = some 255) :
    (array_to_uint8 imgMin imgMax ⟨flag, front ++ [alphaCh]⟩).chans =
      front.map (fun ch => ch.map (fun v => v.map (fun q =>
        ((truncQ ((q - imgMin) / (imgMax - imgMin) * 255) : ℤ) : ℚ)))) ++ [alphaCh] ∧
    (∀ ch ∈ front, ∀ q : ℚ, some q ∈ ch →
      0 ≤ truncQ ((q - imgMin) / (imgMax - imgMin) * 255) ∧
      truncQ ((q - imgMin) / (imgMax - imgMin) * 255) ≤ 255) := by
  constructor
  · rw [array_to_uint8_concat]
    dsimp only
    congr 1
    · apply List.map_congr_left
      intro ch hch
      apply List.map_congr_left
      intro v hv
      rcases v with _ | q
      · simp [rescale_sample, astype_uint8]
      · obtain ⟨hq1, hq2⟩ := hrange ch hch q hv
        rw [astype_rescale_eq hlt hq1 hq2]
        simp
    · congr 1
      have hall : ∀ v ∈ alphaCh, astype_uint8 v = v :=
        fun v hv => astype_alpha_eq (halpha v hv)
      calc alphaCh.map astype_uint8
          = alphaCh.map id := List.map_congr_left (by simpa using hall)
        _ = alphaCh := List.map_id _
  · intro ch hch q hq
    obtain ⟨hq1, hq2⟩ := hrange ch hch q hq
    exact truncQ_scaled_range hlt hq1 hq2

/-- Witness for `C3_rescale_truncates`: statistics `(0, 2)`, one data channel
`[1]`, alpha `[255]`. -/
theorem C3_rescale_truncates_witness :
    ((0 : ℚ) < 2 ∧
      (∀ ch ∈ [[(some 1 : Sample)]], ∀ q : ℚ, some q ∈ ch → (0 : ℚ) ≤ q ∧ q ≤ 2) ∧
      (∀ v ∈ [(some 255 : Sample)], v = some 0 ∨ v = some 255)) ∧
    ((array_to_uint8 0 2 ⟨false, [[(some 1 : Sample)]] ++ [[some 255]]⟩).chans =
      [[(some 1 : Sample)]].map (fun ch => ch.map (fun v => v.map (fun q =>
        ((truncQ ((q - 0) / (2 - 0) * 255) : ℤ) : ℚ)))) ++ [[some 255]] ∧
    (∀ ch ∈ [[(some 1 : Sample)]], ∀ q : ℚ, some q ∈ ch →
      0 ≤ truncQ ((q - 0) / (2 - 0) * 255) ∧
      truncQ ((q - 0) / (2 - 0) * 255) ≤ 255)) := by
  have hrange : ∀ ch ∈ [[(some 1 : Sample)]], ∀ q : ℚ, some q ∈ ch →
      (0 : ℚ) ≤ q ∧ q ≤ 2 := by
    intro ch hch q hq
    simp only [List.mem_singleton] at hch
    subst hch
    simp only [List.mem_singleton, Option.some.injEq] at hq
    subst hq
    norm_num
  have halpha : ∀ v ∈ [(some 255 : Sample)], v = some 0 ∨ v = some 255 := by
    intro v hv
    simp only [List.mem_singleton] at hv
    subst hv
    exact Or.inr rfl
  exact ⟨⟨by norm_num, hrange, halpha⟩,
    C3_rescale_truncates 0 2 [[some 1]] [some 255] false (by norm_num) hrange halpha⟩

/-! ### C6: the degenerate rescale case -/

/-- **C6** (the claim is right, the code is wrong).  When the global
statistics collapse (`img_max = img_min = 5`), the rescale divides by zero:
in NumPy this produces NaN (with a runtime warning), which the `uint8` cast
turns into an undefined sample value, modelled here as `none` — there is no
defined fallback result, contradicting the spec's requirement (§4.4) that
the implementation "must define and document a fallback … rather than
propagating NaN"; the spec's own design note (§9) records this as an
unresolved division artifact in the source.  The alpha sample is unaffected. -/
theorem C6_degenerate_rescale_nan :
    (array_to_uint8 5 5 ⟨false, [[some 5], [some 255]]⟩).chans =
      [[none], [some 255]] := by
  show (array_to_uint8 5 5 ⟨false, [[some 5]] ++ [[some 255]]⟩).chans = _
  rw [array_to_uint8_concat]
  have h1 : astype_uint8 (rescale_sample 5 5 (some 5)) = none := by
    simp [rescale_sample, astype_uint8]
  have h2 : astype_uint8 (some 255) = some 255 := astype_alpha_eq (Or.inr rfl)
  simp [h1, h2]

/-! ### C7: emitted tile buffers -/

lemma read_tile_data_shape (flag : Bool) (count pixels : ℕ)
    (read : ℕ → ℕ → ℚ) (mask : ℕ → Bool) :
    (read_tile_data flag count pixels read mask).isUint8 = flag ∧
    (read_tile_data flag count pixels read mask).chans.length = tile_bands count + 1 ∧
    (∀ ch ∈ (read_tile_data flag count pixels read mask).chans,
      ch.length = pixels * pixels) ∧
    (∀ ch ∈ (read_tile_data flag count pixels read mask).chans, ∀ q : ℚ,
      some q ∈ ch → (∃ b i, q = read b i) ∨ q = 0 ∨ q = 255) := by
  refine ⟨rfl, ?_, ?_, ?_⟩
  · simp [read_tile_data]
  · intro ch hch
    simp only [read_tile_data, List.mem_append, List.mem_map, List.mem_range,
      List.mem_singleton] at hch
    rcases hch with ⟨b, -, rfl⟩ | rfl <;> simp
  · intro ch hch q hq
    simp only [read_tile_data, List.mem_append, List.mem_map, List.mem_range,
      List.mem_singleton] at hch
    rcases hch with ⟨b, -, rfl⟩ | rfl
    · obtain ⟨i, -, hiq⟩ := List.mem_map.mp hq
      simp only [Option.some.injEq] at hiq
      exact Or.inl ⟨b, i, hiq.symm⟩
    · obtain ⟨i, -, hiq⟩ := List.mem_map.mp hq
      simp only [Option.some.injEq] at hiq
      split at hiq
      · exact Or.inr (Or.inl hiq.symm)
      · exact Or.inr (Or.inr hiq.symm)

lemma reproject_tile_data_shape (flag : Bool) (count pixels : ℕ)
    (reproj : ℕ → ℕ → ℚ) :
    (reproject_tile_data flag count pixels reproj).isUint8 = flag ∧
    (reproject_tile_data flag count pixels reproj).chans.length = tile_bands count + 1 ∧
    (∀ ch ∈ (reproject_tile_data flag count pixels reproj).chans,
      ch.length = pixels * pixels) ∧
    (∀ ch ∈ (reproject_tile_data flag count pixels reproj).chans, ∀ q : ℚ,
      some q ∈ ch → ∃ b i, q = reproj b i) := by
  refine ⟨rfl, ?_, ?_, ?_⟩
  · simp [reproject_tile_data]
  · intro ch hch
    simp only [reproject_tile_data, List.mem_map, List.mem_range] at hch
    obtain ⟨b, -, rfl⟩ := hch
    simp
  · intro ch hch q hq
    simp only [reproject_tile_data, List.mem_map, List.mem_range] at hch
    obtain ⟨b, -, rfl⟩ := hch
    obtain ⟨i, -, hiq⟩ := List.mem_map.mp hq
    simp only [Option.some.injEq] at hiq
    exact ⟨b, i, hiq.symm⟩

lemma build_from_raw (imgMin imgMax : ℚ) (raw : TileData) (n m : ℕ)
    (hlen : raw.chans.length = n)
    (hch : ∀ ch ∈ raw.chans, ch.length = m)
    (hval : raw.isUint8 = true → ∀ ch ∈ raw.chans, ∀ q : ℚ, some q ∈ ch →
      ∃ z : ℤ, q = (z : ℚ) ∧ 0 ≤ z ∧ z < 256) :
    (if raw.isUint8 then raw else array_to_uint8 imgMin imgMax raw).isUint8 = true ∧
    (if raw.isUint8 then raw else array_to_uint8 imgMin imgMax raw).chans.length = n ∧
    (∀ ch ∈ (if raw.isUint8 then raw else array_to_uint8 imgMin imgMax raw).chans,
      ch.length = m) ∧
    (∀ ch ∈ (if raw.isUint8 then raw else array_to_uint8 imgMin imgMax raw).chans,
      ∀ q : ℚ, some q ∈ ch → ∃ z : ℤ, q = (z : ℚ) ∧ 0 ≤ z ∧ z < 256) := by
  by_cases hf : raw.isUint8 = true
  · rw [if_pos hf]
    exact ⟨hf, hlen, hch, hval hf⟩
  · rw [if_neg hf]
    refine ⟨rfl, ?_, ?_, ?_⟩
    · rw [array_to_uint8_chans_length, hlen]
    · intro ch' h'
      obtain ⟨ch, hmem, heq⟩ := array_to_uint8_mem _ _ _ _ h'
      rcases heq with rfl | rfl <;> rw [List.length_map] <;> exact hch ch hmem
    · intro ch' h' q hq
      obtain ⟨ch, hmem, heq⟩ := array_to_uint8_mem _ _ _ _ h'
      rcases heq with rfl | rfl <;>
        · obtain ⟨v, -, hvq⟩ := List.mem_map.mp hq
          exact astype_uint8_bounded _ q hvq

/-- **C7** (confirmed).  Whatever the source CRS branch (direct read or
reprojection), the source dtype, and the collaborator-supplied pixel values
(for an 8-bit source the collaborators deliver 8-bit values, the two oracle
hypotheses), every emitted tile buffer is tagged 8-bit unsigned, has exactly
`min(source_bands, 3) + 1` channels of `pixels²` samples each, and every
defined sample value is an integer in `[0, 256)`. -/
theorem C7_tile_buffer_uint8 (imgIs3857 dtypeIsUint8 : Bool) (count pixels : ℕ)
    (imgMin imgMax : ℚ) (read : ℕ → ℕ → ℚ) (mask : ℕ → Bool) (reproj : ℕ → ℕ → ℚ)
    (t : TileData)
    (ht : t = build_tile_data imgIs3857 dtypeIsUint8 count pixels imgMin imgMax
      read mask reproj)
    (hread : dtypeIsUint8 = true →
      ∀ b i, ∃ z : ℤ, read b i = (z : ℚ) ∧ 0 ≤ z ∧ z < 256)
    (hreproj : dtypeIsUint8 = true →
      ∀ b i, ∃ z : ℤ, reproj b i = (z : ℚ) ∧ 0 ≤ z ∧ z < 256) :
    t.isUint8 = true ∧
    t.chans.length = min count 3 + 1 ∧
    (∀ ch ∈ t.chans, ch.length = pixels * pixels) ∧
    (∀ ch ∈ t.chans, ∀ q : ℚ, some q ∈ ch →
      ∃ z : ℤ, q = (z : ℚ) ∧ 0 ≤ z ∧ z < 256) := by
  subst ht
  unfold build_tile_data
  cases imgIs3857
  · obtain ⟨hflag, hlen, hch, hval⟩ :=
      reproject_tile_data_shape dtypeIsUint8 count pixels reproj
    simp only [Bool.false_eq_true, if_false]
    rw [← tile_bands_eq_min]
    refine build_from_raw imgMin imgMax _ _ _ hlen hch ?_
    intro hfl ch hmem q hq
    obtain ⟨b, i, rfl⟩ := hval ch hmem q hq
    obtain ⟨z, hz1, hz2, hz3⟩ := hreproj (hflag ▸ hfl) b i
    exact ⟨z, hz1, hz2, hz3⟩
  · obtain ⟨hflag, hlen, hch, hval⟩ :=
      read_tile_data_shape dtypeIsUint8 count pixels read mask
    simp only [if_true]
    rw [← tile_bands_eq_min]
    refine build_from_raw imgMin imgMax _ _ _ hlen hch ?_
    intro hfl ch hmem q hq
    rcases hval ch hmem q hq with ⟨b, i, rfl⟩ | rfl | rfl
    · obtain ⟨z, hz1, hz2, hz3⟩ := hread (hflag ▸ hfl) b i
      exact ⟨z, hz1, hz2, hz3⟩
    · exact ⟨0, by norm_num, by norm_num, by norm_num⟩
    · exact ⟨255, by norm_num, by norm_num, by norm_num⟩

/-- Witness for `C7_tile_buffer_uint8`: a 5-band 8-bit source in EPSG:3857,
2×2-pixel tiles, constant collaborator value 7. -/
theorem C7_tile_buffer_uint8_witness :
    (build_tile_data true true 5 2 0 0 (fun _ _ => 7) (fun _ => false)
        (fun _ _ => 7) =
      build_tile_data true true 5 2 0 0 (fun _ _ => 7) (fun _ => false)
        (fun _ _ => 7)) ∧
    ((build_tile_data true true 5 2 0 0 (fun _ _ => 7) (fun _ => false)
        (fun _ _ => 7)).isUint8 = true ∧
     (build_tile_data true true 5 2 0 0 (fun _ _ => 7) (fun _ => false)
        (fun _ _ => 7)).chans.length = min 5 3 + 1 ∧
     (∀ ch ∈ (build_tile_data true true 5 2 0 0 (fun _ _ => 7) (fun _ => false)
        (fun _ _ => 7)).chans, ch.length = 2 * 2) ∧
     (∀ ch ∈ (build_tile_data true true 5 2 0 0 (fun _ _ => 7) (fun _ => false)
        (fun _ _ => 7)).chans, ∀ q : ℚ, some q ∈ ch →
        ∃ z : ℤ, q = (z : ℚ) ∧ 0 ≤ z ∧ z < 256)) :=
  ⟨rfl, C7_tile_buffer_uint8 true true 5 2 0 0 (fun _ _ => 7) (fun _ => false)
    (fun _ _ => 7) _ rfl
    (fun _ _ _ => ⟨7, rfl, by norm_num, by norm_num⟩)
    (fun _ _ _ => ⟨7, rfl, by norm_num, by norm_num⟩)⟩

end Rasterioxyz
